import Mathlib

/-!
# Verification of the vso-agent worker core

Shallow embedding of the worker-side job coordinator (`src/agent/vsoworker.ts`)
and the task bundle cache (`src/agent/taskmanager.ts`), with theorems about the
finalize-once race, workspace path derivation, and the cache operations.
-/

namespace VsoAgent

/-! ## Finalize race (vsoworker.ts, `run`, lines 135-176)

The job-kind branch of `run` registers two callbacks that can each drive
finalization: the `JobAbandoned` event handler (lines 138-150) and the
`jobRunner.run` completion callback (lines 152-176).  Both are guarded by the
`finishingJob` flag; each, when it wins the guard, starts an asynchronous
finalize/drain step (`serviceChannel.drain()` resp. `ctx.finishJob(result)`)
and calls `deferred.resolve(null)` in a `.fin` handler of that step, so the
resolve fires whether the step succeeded or failed.

Events model the single-threaded turns of the Node event loop: the two
trigger callbacks, and the completion (`.fin`) of whichever asynchronous
finalize step was started. -/

inductive REvent where
  /-- The `JobAbandoned` event handler fires (line 138). -/
  | abandoned : REvent
  /-- The `jobRunner.run` completion callback fires (line 152); `err` records
  whether the runner reported an error (logged only). -/
  | engineCompleted (err : Bool) : REvent
  /-- The `serviceChannel.drain()` promise settles and its `.fin` handler runs
  (line 145); `ok` records whether the drain succeeded or rejected. -/
  | drainDone (ok : Bool) : REvent
  /-- The `ctx.finishJob(result)` chain settles and its final `.fin` handler
  runs (line 172); `ok` records whether finishJob succeeded or failed. -/
  | finishDone (ok : Bool) : REvent
deriving DecidableEq, Repr

/-- State of the job-kind branch of `run`: the `finishingJob` guard flag, how
many times each finalize path's guarded body has executed, which asynchronous
finalize step is in flight, and how many times `deferred.resolve` was called. -/
structure RunState where
  finishingJob : Bool
  abandonRuns : Nat
  completeRuns : Nat
  pendingDrain : Bool
  pendingFinish : Bool
  resolveCalls : Nat
deriving DecidableEq, Repr

/-- State on entry to the job-kind branch: `finishingJob = false` (line 136),
nothing run, nothing pending, no resolve yet. -/
def initRunState : RunState :=
  { finishingJob := false, abandonRuns := 0, completeRuns := 0,
    pendingDrain := false, pendingFinish := false, resolveCalls := 0 }

/-- One event-loop turn.  Each trigger checks `finishingJob` and, when it is
still `false`, sets it and starts its finalize step (lines 141-148 resp.
162-174); when it is already `true`, the handler only logs.  A completion
event of a started step runs the `.fin` handler, which calls
`deferred.resolve(null)` regardless of the step's outcome. -/
def runStep (s : RunState) : REvent → RunState
  | .abandoned =>
    if s.finishingJob then s
    else { s with finishingJob := true, abandonRuns := s.abandonRuns + 1,
                  pendingDrain := true }
  | .engineCompleted _ =>
    if s.finishingJob then s
    else { s with finishingJob := true, completeRuns := s.completeRuns + 1,
                  pendingFinish := true }
  | .drainDone _ =>
    if s.pendingDrain then
      { s with pendingDrain := false, resolveCalls := s.resolveCalls + 1 }
    else s
  | .finishDone _ =>
    if s.pendingFinish then
      { s with pendingFinish := false, resolveCalls := s.resolveCalls + 1 }
    else s

/-- Run a whole interleaving from the initial state. -/
def runTrace (es : List REvent) : RunState :=
  es.foldl runStep initRunState

/-- An interleaving is complete and causally well formed from state `s`: a
finalize-step completion can only occur while that step is in flight, and at
the end no started step is still awaiting its completion (both `drain()` and
the `finishJob` chain always settle, and `.fin` always fires). -/
def validFrom (s : RunState) : List REvent → Bool
  | [] => !s.pendingDrain && !s.pendingFinish
  | e :: es =>
    (match e with
     | .drainDone _ => s.pendingDrain
     | .finishDone _ => s.pendingFinish
     | .abandoned => true
     | .engineCompleted _ => true) && validFrom (runStep s e) es

/-- Number of `JobAbandoned` deliveries in an interleaving. -/
def countAbandoned (es : List REvent) : Nat :=
  es.countP (fun e => match e with | .abandoned => true | _ => false)

/-- Number of job-runner completion callbacks in an interleaving. -/
def countEngine (es : List REvent) : Nat :=
  es.countP (fun e => match e with | .engineCompleted _ => true | _ => false)

/-- Number of finalize/drain-step completions in an interleaving. -/
def countFinalizeDone (es : List REvent) : Nat :=
  es.countP (fun e => match e with
    | .drainDone _ => true | .finishDone _ => true | _ => false)

/-- Invariant of the finalize machinery: the guard bodies run at most once in
total, `finishingJob` records exactly whether a body has run, a finalize step
is in flight only after its body ran, and every body run is accounted for by
either a pending step or a resolve call. -/
def RunInv (s : RunState) : Prop :=
  s.abandonRuns + s.completeRuns ≤ 1 ∧
  (s.finishingJob = true ↔ s.abandonRuns + s.completeRuns = 1) ∧
  (s.pendingDrain = true → s.finishingJob = true) ∧
  (s.pendingFinish = true → s.finishingJob = true) ∧
  s.resolveCalls + (if s.pendingDrain then 1 else 0)
    + (if s.pendingFinish then 1 else 0) = s.abandonRuns + s.completeRuns

theorem runInv_init : RunInv initRunState := by
  simp [RunInv, initRunState]

theorem runInv_step (s : RunState) (e : REvent) (h : RunInv s) :
    RunInv (runStep s e) := by
  obtain ⟨fj, ar, cr, pd, pf, rc⟩ := s
  cases e <;> cases fj <;> cases pd <;> cases pf <;>
    simp_all [RunInv, runStep] <;> omega

theorem runInv_foldl (es : List REvent) (s : RunState) (h : RunInv s) :
    RunInv (es.foldl runStep s) := by
  induction es generalizing s with
  | nil => exact h
  | cons e es ih => exact ih _ (runInv_step s e h)

/-- Once a trigger arrives, `finishingJob` is and stays `true`. -/
theorem finishing_mono (es : List REvent) (s : RunState) (h : s.finishingJob = true) :
    (es.foldl runStep s).finishingJob = true := by
  induction es generalizing s with
  | nil => exact h
  | cons e es ih =>
    refine ih _ ?_
    cases e with
    | abandoned => simp [runStep, h]
    | engineCompleted err => simp [runStep, h]
    | drainDone ok =>
      by_cases hp : s.pendingDrain = true <;> simp [runStep, hp, h]
    | finishDone ok =>
      by_cases hp : s.pendingFinish = true <;> simp [runStep, hp, h]

/-- If some trigger occurs in the interleaving, a finalize body has run by the
end (the first trigger always wins the guard). -/
theorem finishing_of_trigger (es : List REvent) (s : RunState)
    (h : 1 ≤ countAbandoned es + countEngine es) :
    (es.foldl runStep s).finishingJob = true := by
  induction es generalizing s with
  | nil => simp [countAbandoned, countEngine] at h
  | cons e es ih =>
    cases e with
    | abandoned =>
      refine finishing_mono es _ ?_
      by_cases hf : s.finishingJob = true <;> simp [runStep, hf]
    | engineCompleted err =>
      refine finishing_mono es _ ?_
      by_cases hf : s.finishingJob = true <;> simp [runStep, hf]
    | drainDone ok =>
      refine ih _ ?_
      simpa [countAbandoned, countEngine] using h
    | finishDone ok =>
      refine ih _ ?_
      simpa [countAbandoned, countEngine] using h

/-- A valid interleaving ends with no finalize step still in flight. -/
theorem validFrom_no_pending (es : List REvent) (s : RunState)
    (h : validFrom s es = true) :
    (es.foldl runStep s).pendingDrain = false ∧
      (es.foldl runStep s).pendingFinish = false := by
  induction es generalizing s with
  | nil =>
    simp only [validFrom, Bool.and_eq_true, Bool.not_eq_true'] at h
    exact ⟨h.1, h.2⟩
  | cons e es ih =>
    simp only [validFrom, Bool.and_eq_true] at h
    exact ih _ h.2

/-- Claim C1.  For every causally valid interleaving of the two finalize
triggers — the job-runner completion callback and the `JobAbandoned` event —
arriving in either order or only one arriving, exactly one guarded finalize
body executes (the other trigger, if delivered, observes `finishingJob`
already set and only logs) and `deferred.resolve` is called exactly once. -/
theorem finalize_exactly_once (es : List REvent)
    (hvalid : validFrom initRunState es = true)
    (hab : countAbandoned es ≤ 1) (hen : countEngine es ≤ 1)
    (htrig : 1 ≤ countAbandoned es + countEngine es) :
    (runTrace es).abandonRuns + (runTrace es).completeRuns = 1 ∧
      (runTrace es).resolveCalls = 1 := by
  have hinv : RunInv (runTrace es) := runInv_foldl es initRunState runInv_init
  obtain ⟨h1, h2, h3, h4, h5⟩ := hinv
  have hfin : (runTrace es).finishingJob = true :=
    finishing_of_trigger es initRunState htrig
  have hbody : (runTrace es).abandonRuns + (runTrace es).completeRuns = 1 := h2.mp hfin
  obtain ⟨hpd, hpf⟩ := validFrom_no_pending es initRunState hvalid
  have hpd' : (runTrace es).pendingDrain = false := hpd
  have hpf' : (runTrace es).pendingFinish = false := hpf
  refine ⟨hbody, ?_⟩
  rw [hbody] at h5
  simp [hpd', hpf'] at h5
  exact h5

/-- Witness for C1: abandonment arrives first, then the engine completes;
the drain step settles in between. -/
theorem finalize_exactly_once_witness :
    (runTrace [REvent.abandoned, REvent.drainDone true,
        REvent.engineCompleted false]).abandonRuns +
      (runTrace [REvent.abandoned, REvent.drainDone true,
        REvent.engineCompleted false]).completeRuns = 1 ∧
    (runTrace [REvent.abandoned, REvent.drainDone true,
        REvent.engineCompleted false]).resolveCalls = 1 :=
  finalize_exactly_once
    [REvent.abandoned, REvent.drainDone true, REvent.engineCompleted false]
    (by decide) (by decide) (by decide) (by decide)

/-- Claim C2.  In every interleaving (in particular every prefix of one), the
number of `deferred.resolve` calls never exceeds the number of completed
finalize/drain steps: the completion promise is resolved only after the
channel finalize/drain step has completed — whether that step succeeded or
failed — and never before. -/
theorem resolve_after_drain (es : List REvent) :
    (runTrace es).resolveCalls ≤ countFinalizeDone es := by
  suffices h : ∀ (es : List REvent) (s : RunState),
      (es.foldl runStep s).resolveCalls ≤ s.resolveCalls + countFinalizeDone es by
    simpa [runTrace, initRunState] using h es initRunState
  intro es
  induction es with
  | nil => intro s; simp [countFinalizeDone]
  | cons e es ih =>
    intro s
    have := ih (runStep s e)
    cases e with
    | abandoned =>
      refine le_trans this ?_
      by_cases hf : s.finishingJob = true <;>
        simp [runStep, hf, countFinalizeDone, List.countP_cons]
    | engineCompleted err =>
      refine le_trans this ?_
      by_cases hf : s.finishingJob = true <;>
        simp [runStep, hf, countFinalizeDone, List.countP_cons]
    | drainDone ok =>
      refine le_trans this ?_
      by_cases hp : s.pendingDrain = true <;>
        simp [runStep, hp, countFinalizeDone, List.countP_cons] <;> omega
    | finishDone ok =>
      refine le_trans this ?_
      by_cases hp : s.pendingFinish = true <;>
        simp [runStep, hp, countFinalizeDone, List.countP_cons] <;> omega

/-! ## Task bundle cache (taskmanager.ts)

`TaskManager` keeps extracted task bundles under
`taskFolder/<name>/<version>` (`getTaskPath`, lines 119-121) with a transient
archive at `taskFolder/<name>/<version>.zip` during download.  The cache state
we track is the set of `(name, version)` directories present on disk. -/

structure TaskInstance where
  id : String
  name : String
  version : String
deriving DecidableEq, Repr

/-- A catalog entry returned by `taskApi.getTasks`. -/
structure TaskDefinition where
  id : String
  name : String
  version : String
deriving DecidableEq, Repr

/-- Modelled from the spec: `cm.versionStringFromTaskDef` lives in
`common.ts`, which is not among the visible sources; per the spec's version
ordering policy it renders a catalog entry's version as a string that is then
compared as an opaque string. -/
def versionStringFromTaskDef (d : TaskDefinition) : String := d.version

/-- `getTaskInstance` (lines 123-125). -/
def getTaskInstance (d : TaskDefinition) : TaskInstance :=
  { id := d.id, name := d.name, version := versionStringFromTaskDef d }

/-- The `(name, version)` bundle directories present under the task folder. -/
abbrev TaskDirs := List (String × String)

/-- `hasTask` (lines 30-36): `fs.existsSync` on `getTaskPath task`. -/
def hasTask (dirs : TaskDirs) (t : TaskInstance) : Bool :=
  dirs.contains (t.name, t.version)

/-- External outcomes of one `downloadTask` run: the error the
`taskApi.downloadTask` callback reports (line 100), whether the archive on
disk after the download step is a valid readable archive, and the outcome of
extracting a valid archive (line 105). -/
structure DLEnv where
  dlErr : Option String
  zipValid : Bool
  extractErr : Option String
deriving DecidableEq, Repr

/-- Modelled from the spec: `cm.extractFile` lives in `common.ts`, not among
the visible sources; a corrupt or unreadable (including absent) archive makes
it report an `ExtractionError` to its callback, while extraction of a valid
archive reports the environment's outcome. -/
def extractOutcome (env : DLEnv) : Option String :=
  if env.zipValid then env.extractErr else some "archive unreadable"

/-- Q deferred settlement: the first `resolve`/`reject` wins, later calls are
no-ops.  `some e` settles as a rejection with `e`, `none` as a resolution. -/
def settle (cur : Option (Option String)) (out : Option String) :
    Option (Option String) :=
  match cur with
  | some x => some x
  | none => some out

/-- Result of one `downloadTask` run: whether the bundle directory and the
staging archive are present afterwards, how the returned promise settled, and
how many network download calls were made. -/
structure DLResult where
  dirPresent : Bool
  zipPresent : Bool
  settled : Option (Option String)
  networkCalls : Nat
deriving DecidableEq, Repr

/-- The first error arising in a `downloadTask` run: the download callback's
error if any, otherwise the extraction outcome. -/
def firstErr (env : DLEnv) : Option String :=
  match env.dlErr with
  | some e => some e
  | none => extractOutcome env

/-- `downloadTask` (lines 94-117).  Line 97 (`shell.mkdir -p`) creates the
directory before the download; line 102 rejects on a download error but does
not return, so line 105 still invokes `cm.extractFile`; on an extraction error
line 107 removes the directory and line 108 rejects, again without returning,
so line 111 removes the archive and line 112 calls `resolve` (a no-op when the
promise already settled). -/
def downloadTask (env : DLEnv) : DLResult :=
  let s1 : Option (Option String) :=
    match env.dlErr with
    | some e => settle none (some e)
    | none => none
  match extractOutcome env with
  | some e =>
    { dirPresent := false, zipPresent := false,
      settled := settle (settle s1 (some e)) none, networkCalls := 1 }
  | none =>
    { dirPresent := true, zipPresent := false,
      settled := settle s1 none, networkCalls := 1 }

/-- Claim C4.  If the download step or the extraction step of `downloadTask`
fails, afterwards the bundle directory and the staging archive are both
absent and the promise is rejected with the first error.  The hypothesis is
the spec-modelled behaviour of a failed download: it does not leave a valid
readable archive behind, so the fall-through extraction also fails. -/
theorem download_rollback (env : DLEnv)
    (hwf : env.dlErr.isSome = true → env.zipValid = false)
    (hfail : env.dlErr.isSome = true ∨ (extractOutcome env).isSome = true) :
    (downloadTask env).dirPresent = false ∧
      (downloadTask env).zipPresent = false ∧
      (downloadTask env).settled = some (firstErr env) ∧
      (firstErr env).isSome = true := by
  obtain ⟨dl, zv, ex⟩ := env
  cases dl <;> cases zv <;> cases ex <;>
    simp_all [downloadTask, extractOutcome, settle, firstErr]

/-- Witness for C4: the download succeeds but extraction reports a corrupt
archive; directory and archive are gone and the promise is rejected. -/
theorem download_rollback_witness :
    (downloadTask ⟨none, true, some "corrupt archive"⟩).dirPresent = false ∧
      (downloadTask ⟨none, true, some "corrupt archive"⟩).zipPresent = false ∧
      (downloadTask ⟨none, true, some "corrupt archive"⟩).settled =
        some (firstErr ⟨none, true, some "corrupt archive"⟩) ∧
      (firstErr ⟨none, true, some "corrupt archive"⟩).isSome = true :=
  download_rollback ⟨none, true, some "corrupt archive"⟩ (by decide) (by decide)

/-- `ensureTaskExists` (lines 22-28): return the cache directories afterward,
the number of network download calls issued, and the promise settlement. -/
def ensureTaskExists (dirs : TaskDirs) (t : TaskInstance) (env : DLEnv) :
    TaskDirs × Nat × Option (Option String) :=
  if hasTask dirs t then
    (dirs, 0, some none)
  else
    let r := downloadTask env
    ((if r.dirPresent then (t.name, t.version) :: dirs else dirs),
      r.networkCalls, r.settled)

/-- Claim C9.  When the bundle directory for a task is already present,
`ensureTaskExists` resolves successfully without any network call and without
touching the filesystem, whatever the download environment would have done:
a second call on an already-present bundle performs zero network calls. -/
theorem ensure_noop_when_present (dirs : TaskDirs) (t : TaskInstance)
    (env : DLEnv) (h : hasTask dirs t = true) :
    ensureTaskExists dirs t env = (dirs, 0, some none) := by
  simp [ensureTaskExists, h]

/-- Witness for C9: a cache already holding `("build", "1.0")`. -/
theorem ensure_noop_when_present_witness :
    ensureTaskExists [("build", "1.0")] ⟨"id1", "build", "1.0"⟩
        ⟨some "network down", false, none⟩ =
      ([("build", "1.0")], 0, some none) :=
  ensure_noop_when_present [("build", "1.0")] ⟨"id1", "build", "1.0"⟩
    ⟨some "network down", false, none⟩ (by decide)

/-- The `id + ':' + version` key of the dedup bookkeeping (line 44). -/
def idVersionKey (t : TaskInstance) : String := t.id ++ ":" ++ t.version

/-- The `uniqueTasks` loop of `ensureTasksExist` (lines 40-49): keep the first
occurrence of each `id:version` key. -/
def uniqueTasksAux (seen : List String) : List TaskInstance → List TaskInstance
  | [] => []
  | t :: ts =>
    if idVersionKey t ∈ seen then uniqueTasksAux seen ts
    else t :: uniqueTasksAux (idVersionKey t :: seen) ts

def uniqueTasksOf (tasks : List TaskInstance) : List TaskInstance :=
  uniqueTasksAux [] tasks

/-- The synchronous phase of `ensureTasksExist` (lines 38-55).  Line 51 maps
`ensureTaskExists` over the original `tasks` list — not over `uniqueTasks`.
Each call synchronously checks `hasTask`; for a missing bundle,
`downloadTask` synchronously runs `shell.mkdir -p` (line 97) before the
asynchronous download starts, so a later element with the same path already
sees the directory.  Returns the directories after this phase, the number of
`ensureTaskExists` invocations, and the tasks for which a download was
issued. -/
def ensureTasksExistSync (dirs : TaskDirs) :
    List TaskInstance → TaskDirs × Nat × List TaskInstance
  | [] => (dirs, 0, [])
  | t :: ts =>
    if hasTask dirs t then
      let r := ensureTasksExistSync dirs ts
      (r.1, r.2.1 + 1, r.2.2)
    else
      let r := ensureTasksExistSync ((t.name, t.version) :: dirs) ts
      (r.1, r.2.1 + 1, t :: r.2.2)

/-- Claim C3 (code bug).  `ensureTasksExist` computes the dedup set
`uniqueTasks` (lines 40-49, under the comment "Check only once for each
id/version combo") but then maps `ensureTaskExists` over the original `tasks`
list (line 51).  On two entries sharing the `(id, version)` pair the dedup
set has one element, yet `ensureTaskExists` is invoked twice, and when the
two entries carry different names both trigger a download. -/
theorem ensureTasks_dedup_not_applied :
    (uniqueTasksOf [⟨"a", "n1", "1"⟩, ⟨"a", "n2", "1"⟩]).length = 1 ∧
      (ensureTasksExistSync [] [⟨"a", "n1", "1"⟩, ⟨"a", "n2", "1"⟩]).2.1 = 2 ∧
      (ensureTasksExistSync [] [⟨"a", "n1", "1"⟩, ⟨"a", "n2", "1"⟩]).2.2 =
        [⟨"a", "n1", "1"⟩, ⟨"a", "n2", "1"⟩] := by decide

/-! ### Latest-version reduction and `ensureLatestExist` (lines 58-92) -/

/-- JavaScript `<` on the character sequences of two strings: lexicographic
comparison by code point.  Line 77's `a > b` on version strings is
`jsStringLt b a`. -/
def jsLtChars : List Char → List Char → Bool
  | [], [] => false
  | [], _ :: _ => true
  | _ :: _, [] => false
  | a :: as, b :: bs =>
    if a.toNat < b.toNat then true
    else if b.toNat < a.toNat then false
    else jsLtChars as bs

def jsStringLt (a b : String) : Bool := jsLtChars a.data b.data

/-- `a` is at most `b` in the JavaScript string order: `b < a` does not hold. -/
def jsStringLe (a b : String) : Prop := jsStringLt b a = false

theorem jsLtChars_irrefl : ∀ a, jsLtChars a a = false
  | [] => rfl
  | c :: cs => by simp [jsLtChars, jsLtChars_irrefl cs]

theorem jsStringLe_refl (a : String) : jsStringLe a a :=
  jsLtChars_irrefl a.data

theorem jsLtChars_asymm : ∀ a b, jsLtChars a b = true → jsLtChars b a = false := by
  intro a
  induction a with
  | nil =>
    intro b h
    cases b with
    | nil => simpa [jsLtChars] using h
    | cons y ys => simp [jsLtChars]
  | cons x xs ih =>
    intro b h
    cases b with
    | nil => simpa [jsLtChars] using h
    | cons y ys =>
      simp only [jsLtChars] at h ⊢
      by_cases hxy : x.toNat < y.toNat
      · have hyx : ¬ y.toNat < x.toNat := by omega
        simp [hyx, hxy]
      · simp only [if_neg hxy] at h
        by_cases hyx : y.toNat < x.toNat
        · simp [hyx] at h
        · simp only [if_neg hyx] at h ⊢
          simp only [if_neg hxy]
          exact ih ys h

theorem jsStringLe_of_lt {a b : String} (h : jsStringLt a b = true) :
    jsStringLe a b :=
  jsLtChars_asymm a.data b.data h

theorem jsLtChars_neg_trans : ∀ a b c : List Char,
    jsLtChars b a = false → jsLtChars c b = false → jsLtChars c a = false := by
  intro a
  induction a with
  | nil =>
    intro b c _ _
    cases c <;> simp_all [jsLtChars]
  | cons x xs ih =>
    intro b c h1 h2
    cases b with
    | nil => simp [jsLtChars] at h1
    | cons y ys =>
      cases c with
      | nil => simp [jsLtChars] at h2
      | cons z zs =>
        simp only [jsLtChars] at h1 h2 ⊢
        by_cases hyx : y.toNat < x.toNat
        · simp [hyx] at h1
        · by_cases hzy : z.toNat < y.toNat
          · simp [hzy] at h2
          · by_cases hzx : z.toNat < x.toNat
            · exact absurd hzx (by omega)
            · simp only [if_neg hzx]
              by_cases hxz : x.toNat < z.toNat
              · simp [hxz]
              · simp only [if_neg hxz]
                have hxy : ¬ x.toNat < y.toNat := by omega
                have hyz : ¬ y.toNat < z.toNat := by omega
                simp only [if_neg hyx, if_neg hxy] at h1
                simp only [if_neg hzy, if_neg hyz] at h2
                exact ih ys zs h1 h2

theorem jsStringLe_trans {a b c : String}
    (h1 : jsStringLe a b) (h2 : jsStringLe b c) : jsStringLe a c :=
  jsLtChars_neg_trans a.data b.data c.data h1 h2

/-- In-place update of the tracked entry for `d.id` (lines 77-80): the
`latestIndex` dictionary points at the previously pushed entry with this id
(unique, since ids are pushed at most once), which is replaced when the new
catalog entry's version string compares greater under the JavaScript string
`>`. -/
def latestUpdate (d : TaskDefinition) : List TaskInstance → List TaskInstance
  | [] => []
  | t :: ts =>
    if t.id = d.id then
      (if jsStringLt t.version (versionStringFromTaskDef d) then
        getTaskInstance d else t) :: ts
    else t :: latestUpdate d ts

/-- One iteration of the latest-version loop (lines 70-81): push a first-seen
id at the end, otherwise update the tracked entry in place. -/
def latestFold (acc : List TaskInstance) (d : TaskDefinition) : List TaskInstance :=
  if acc.any (fun t => t.id == d.id) then latestUpdate d acc
  else acc ++ [getTaskInstance d]

/-- The "sort out only latest versions" reduction (lines 67-81). -/
def latestReduce (catalog : List TaskDefinition) : List TaskInstance :=
  catalog.foldl latestFold []

theorem latestUpdate_ids (d : TaskDefinition) (acc : List TaskInstance) :
    (latestUpdate d acc).map (·.id) = acc.map (·.id) := by
  induction acc with
  | nil => rfl
  | cons t ts ih =>
    simp only [latestUpdate]
    by_cases h : t.id = d.id
    · rw [if_pos h]
      by_cases hc : jsStringLt t.version (versionStringFromTaskDef d) = true
      · rw [if_pos hc]; simp [getTaskInstance, h]
      · rw [if_neg hc]
    · rw [if_neg h]; simp [ih]

theorem latestFold_ids_mem (acc : List TaskInstance) (d : TaskDefinition)
    (s : String) :
    s ∈ (latestFold acc d).map (·.id) ↔ s ∈ acc.map (·.id) ∨ s = d.id := by
  by_cases ha : acc.any (fun t => t.id == d.id) = true
  · have hid : d.id ∈ acc.map (·.id) := by
      obtain ⟨t, ht, heq⟩ := List.any_eq_true.mp ha
      simp only [beq_iff_eq] at heq
      exact List.mem_map.mpr ⟨t, ht, heq⟩
    rw [latestFold, if_pos ha, latestUpdate_ids]
    constructor
    · exact Or.inl
    · rintro (h' | rfl)
      · exact h'
      · exact hid
  · rw [latestFold, if_neg ha]
    simp [getTaskInstance]

theorem latestFold_ids_nodup (acc : List TaskInstance) (d : TaskDefinition)
    (h : (acc.map (·.id)).Nodup) : ((latestFold acc d).map (·.id)).Nodup := by
  by_cases ha : acc.any (fun t => t.id == d.id) = true
  · rw [latestFold, if_pos ha, latestUpdate_ids]; exact h
  · rw [latestFold, if_neg ha]
    have hnot : d.id ∉ acc.map (·.id) := by
      intro hmem
      obtain ⟨t, ht, heq⟩ := List.mem_map.mp hmem
      exact ha (List.any_eq_true.mpr ⟨t, ht, by simp [heq]⟩)
    simp [getTaskInstance, List.nodup_append, h, hnot]

theorem foldl_latest_ids_mem (catalog : List TaskDefinition) :
    ∀ (acc : List TaskInstance) (s : String),
      s ∈ ((catalog.foldl latestFold acc).map (·.id)) ↔
        s ∈ acc.map (·.id) ∨ s ∈ catalog.map (·.id) := by
  induction catalog with
  | nil => intro acc s; simp
  | cons d ds ih =>
    intro acc s
    simp only [List.foldl_cons, List.map_cons, List.mem_cons]
    rw [ih, latestFold_ids_mem]
    tauto

theorem foldl_latest_ids_nodup (catalog : List TaskDefinition) :
    ∀ acc : List TaskInstance, (acc.map (·.id)).Nodup →
      ((catalog.foldl latestFold acc).map (·.id)).Nodup := by
  induction catalog with
  | nil => intro acc h; exact h
  | cons d ds ih =>
    intro acc h
    simp only [List.foldl_cons]
    exact ih _ (latestFold_ids_nodup acc d h)

theorem latestReduce_count (catalog : List TaskDefinition) (s : String) :
    ((latestReduce catalog).map (·.id)).count s =
      if s ∈ catalog.map (·.id) then 1 else 0 := by
  have hnd := foldl_latest_ids_nodup catalog [] (by simp)
  have hmem := foldl_latest_ids_mem catalog [] s
  by_cases h : s ∈ catalog.map (·.id)
  · rw [if_pos h]
    exact List.count_eq_one_of_mem hnd (hmem.mpr (Or.inr h))
  · rw [if_neg h]
    apply List.count_eq_zero_of_not_mem
    intro hc
    rcases hmem.mp hc with h' | h'
    · simp at h'
    · exact h h'

theorem latestUpdate_mem (d : TaskDefinition) (acc : List TaskInstance)
    (t : TaskInstance) (h : t ∈ latestUpdate d acc) :
    t ∈ acc ∨ t = getTaskInstance d := by
  induction acc with
  | nil => simp [latestUpdate] at h
  | cons u us ih =>
    simp only [latestUpdate] at h
    by_cases hu : u.id = d.id
    · rw [if_pos hu] at h
      rcases List.mem_cons.mp h with h' | h'
      · by_cases hc : jsStringLt u.version (versionStringFromTaskDef d) = true
        · rw [if_pos hc] at h'
          exact Or.inr h'
        · rw [if_neg hc] at h'
          exact Or.inl (h' ▸ List.mem_cons_self u us)
      · exact Or.inl (List.mem_cons_of_mem _ h')
    · rw [if_neg hu] at h
      rcases List.mem_cons.mp h with h' | h'
      · exact Or.inl (h' ▸ List.mem_cons_self u us)
      · rcases ih h' with h'' | h''
        · exact Or.inl (List.mem_cons_of_mem _ h'')
        · exact Or.inr h''

theorem latestUpdate_mono (d : TaskDefinition) (acc : List TaskInstance)
    (t : TaskInstance) (h : t ∈ acc) :
    ∃ t' ∈ latestUpdate d acc, t'.id = t.id ∧ jsStringLe t.version t'.version := by
  induction acc with
  | nil => simp at h
  | cons u us ih =>
    simp only [latestUpdate]
    by_cases hu : u.id = d.id
    · rw [if_pos hu]
      rcases List.mem_cons.mp h with heq | h'
      · by_cases hc : jsStringLt u.version (versionStringFromTaskDef d) = true
        · rw [if_pos hc]
          refine ⟨getTaskInstance d, List.mem_cons_self _ _, ?_, ?_⟩
          · rw [heq]; simp [getTaskInstance, hu]
          · rw [heq]; exact jsStringLe_of_lt hc
        · rw [if_neg hc]
          exact ⟨u, List.mem_cons_self _ _, by rw [heq],
          by rw [heq]; exact jsStringLe_refl _⟩
      · exact ⟨t, List.mem_cons_of_mem _ h', rfl, jsStringLe_refl _⟩
    · rw [if_neg hu]
      rcases List.mem_cons.mp h with heq | h'
      · exact ⟨u, List.mem_cons_self _ _, by rw [heq],
          by rw [heq]; exact jsStringLe_refl _⟩
      · obtain ⟨t', ht', h1, h2⟩ := ih h'
        exact ⟨t', List.mem_cons_of_mem _ ht', h1, h2⟩

theorem latestUpdate_head_bound (d : TaskDefinition) (acc : List TaskInstance)
    (h : ∃ u ∈ acc, u.id = d.id) :
    ∃ t ∈ latestUpdate d acc,
      t.id = d.id ∧ jsStringLe (versionStringFromTaskDef d) t.version := by
  induction acc with
  | nil => simp at h
  | cons u us ih =>
    simp only [latestUpdate]
    by_cases hu : u.id = d.id
    · rw [if_pos hu]
      by_cases hc : jsStringLt u.version (versionStringFromTaskDef d) = true
      · rw [if_pos hc]
        exact ⟨getTaskInstance d, List.mem_cons_self _ _,
          by simp [getTaskInstance], jsStringLe_refl _⟩
      · rw [if_neg hc]
        exact ⟨u, List.mem_cons_self _ _, hu, by simpa [jsStringLe] using hc⟩
    · rw [if_neg hu]
      have h' : ∃ v ∈ us, v.id = d.id := by
        obtain ⟨v, hv, hveq⟩ := h
        rcases List.mem_cons.mp hv with heq | hv'
        · exact absurd (heq ▸ hveq) hu
        · exact ⟨v, hv', hveq⟩
      obtain ⟨t, ht, h1, h2⟩ := ih h'
      exact ⟨t, List.mem_cons_of_mem _ ht, h1, h2⟩

theorem latestFold_head_bound (acc : List TaskInstance) (d : TaskDefinition) :
    ∃ t ∈ latestFold acc d,
      t.id = d.id ∧ jsStringLe (versionStringFromTaskDef d) t.version := by
  by_cases ha : acc.any (fun t => t.id == d.id) = true
  · rw [latestFold, if_pos ha]
    apply latestUpdate_head_bound
    obtain ⟨u, hu, hueq⟩ := List.any_eq_true.mp ha
    exact ⟨u, hu, by simpa using hueq⟩
  · rw [latestFold, if_neg ha]
    exact ⟨getTaskInstance d, by simp, by simp [getTaskInstance],
      jsStringLe_refl _⟩

theorem latestFold_mono (acc : List TaskInstance) (d : TaskDefinition)
    (t : TaskInstance) (h : t ∈ acc) :
    ∃ t' ∈ latestFold acc d, t'.id = t.id ∧ jsStringLe t.version t'.version := by
  by_cases ha : acc.any (fun t => t.id == d.id) = true
  · rw [latestFold, if_pos ha]
    exact latestUpdate_mono d acc t h
  · rw [latestFold, if_neg ha]
    exact ⟨t, List.mem_append_left _ h, rfl, jsStringLe_refl _⟩

theorem foldl_latest_mono (catalog : List TaskDefinition) :
    ∀ (acc : List TaskInstance) (t : TaskInstance), t ∈ acc →
      ∃ t' ∈ catalog.foldl latestFold acc,
        t'.id = t.id ∧ jsStringLe t.version t'.version := by
  induction catalog with
  | nil =>
    intro acc t h
    exact ⟨t, h, rfl, jsStringLe_refl _⟩
  | cons d ds ih =>
    intro acc t h
    simp only [List.foldl_cons]
    obtain ⟨u, hu, h1, h2⟩ := latestFold_mono acc d t h
    obtain ⟨t', ht', h1', h2'⟩ := ih (latestFold acc d) u hu
    exact ⟨t', ht', h1'.trans h1, jsStringLe_trans h2 h2'⟩

theorem foldl_latest_ub (catalog : List TaskDefinition) :
    ∀ acc : List TaskInstance, (acc.map (·.id)).Nodup →
      ∀ d ∈ catalog, ∀ t ∈ catalog.foldl latestFold acc,
        d.id = t.id → jsStringLe (versionStringFromTaskDef d) t.version := by
  induction catalog with
  | nil =>
    intro acc _ d hd
    simp at hd
  | cons d0 ds ih =>
    intro acc hnd d hd t ht hid
    simp only [List.foldl_cons] at ht
    rcases List.mem_cons.mp hd with heq | hd'
    · subst heq
      obtain ⟨u, hu, hu1, hu2⟩ := latestFold_head_bound acc d
      obtain ⟨t', ht', h1', h2'⟩ := foldl_latest_mono ds (latestFold acc d) u hu
      have hndF := foldl_latest_ids_nodup ds (latestFold acc d)
        (latestFold_ids_nodup acc d hnd)
      have hids : t'.id = t.id := by rw [h1', hu1, hid]
      have heqt : t' = t :=
        List.inj_on_of_nodup_map hndF ht' ht hids
      exact heqt ▸ jsStringLe_trans hu2 h2'
    · exact ih (latestFold acc d0) (latestFold_ids_nodup acc d0 hnd) d hd' t ht hid

theorem foldl_latest_realize (catalog : List TaskDefinition) :
    ∀ acc : List TaskInstance, ∀ t ∈ catalog.foldl latestFold acc,
      (∃ u ∈ acc, u.id = t.id ∧ u.version = t.version) ∨
        (∃ d ∈ catalog, d.id = t.id ∧ versionStringFromTaskDef d = t.version) := by
  induction catalog with
  | nil =>
    intro acc t ht
    exact Or.inl ⟨t, ht, rfl, rfl⟩
  | cons d0 ds ih =>
    intro acc t ht
    simp only [List.foldl_cons] at ht
    rcases ih (latestFold acc d0) t ht with ⟨u, hu, h1, h2⟩ | ⟨d, hd, h1, h2⟩
    · by_cases ha : acc.any (fun t => t.id == d0.id) = true
      · rw [latestFold, if_pos ha] at hu
        rcases latestUpdate_mem d0 acc u hu with hu' | hu'
        · exact Or.inl ⟨u, hu', h1, h2⟩
        · refine Or.inr ⟨d0, List.mem_cons_self _ _, ?_, ?_⟩
          · rw [← h1, hu']; simp [getTaskInstance]
          · rw [← h2, hu']; rfl
      · rw [latestFold, if_neg ha] at hu
        rcases List.mem_append.mp hu with hu' | hu'
        · exact Or.inl ⟨u, hu', h1, h2⟩
        · have hu'' : u = getTaskInstance d0 := by simpa using hu'
          refine Or.inr ⟨d0, List.mem_cons_self _ _, ?_, ?_⟩
          · rw [← h1, hu'']; simp [getTaskInstance]
          · rw [← h2, hu'']; rfl
    · exact Or.inr ⟨d, List.mem_cons_of_mem _ hd, h1, h2⟩

/-- Outcome of the `getTasks` callback as `ensureLatestExist` observes it at
line 62: the error argument and the task-list argument.  `tasks = none`
models the JavaScript `null`/`undefined` list delivered when the listing
fails. -/
structure GetTasksCallback where
  err : Option String
  tasks : Option (List TaskDefinition)
deriving DecidableEq, Repr

/-- What `ensureLatestExist` (lines 58-92) does once the `getTasks` callback
fires.  `rejectedFirst` is the error `deferred.reject` was called with at
line 64, if any — the rejection does **not** return from the callback. -/
inductive LatestOutcome where
  /-- Reading `tasks.length` (line 70) threw a TypeError on a `null` list;
  the reduction loop never ran and `ensureTasksExist` was never called. -/
  | threw (rejectedFirst : Option String) : LatestOutcome
  /-- The reduction loop ran to completion and `ensureTasksExist` was invoked
  on `ensured` (line 84). -/
  | processed (rejectedFirst : Option String) (ensured : List TaskInstance) :
      LatestOutcome
deriving DecidableEq, Repr

/-- `ensureLatestExist` (lines 58-92): line 63 rejects on an error but does
not return, so execution falls into the reduction loop (line 70) and then
into the `ensureTasksExist` call (line 84) whenever a task list was
delivered, and throws on `tasks.length` when it was not. -/
def ensureLatestExist (cb : GetTasksCallback) : LatestOutcome :=
  match cb.tasks with
  | none => .threw cb.err
  | some ts => .processed cb.err (latestReduce ts)

/-- Claim C5.  On a successfully listed catalog, `ensureLatestExist` hands
`ensureTasksExist` exactly `latestReduce catalog`, which keeps one
`TaskInstance` per task id carrying the maximum version of that id under
opaque-string comparison: every id of the catalog occurs exactly once, each
kept entry's version is attained by a catalog entry of that id, and no
catalog entry of that id has a greater version string. -/
theorem latestReduce_max (catalog : List TaskDefinition) :
    ensureLatestExist ⟨none, some catalog⟩ =
        LatestOutcome.processed none (latestReduce catalog) ∧
      (∀ s, ((latestReduce catalog).map (·.id)).count s =
        if s ∈ catalog.map (·.id) then 1 else 0) ∧
      ∀ t ∈ latestReduce catalog,
        (∃ d ∈ catalog, d.id = t.id ∧ versionStringFromTaskDef d = t.version) ∧
          ∀ d ∈ catalog, d.id = t.id →
            jsStringLe (versionStringFromTaskDef d) t.version := by
  refine ⟨rfl, latestReduce_count catalog, ?_⟩
  intro t ht
  constructor
  · rcases foldl_latest_realize catalog [] t ht with ⟨u, hu, _⟩ | h
    · simp at hu
    · exact h
  · intro d hd hid
    exact foldl_latest_ub catalog [] (by simp) d hd t ht hid

/-- Witness for C5, on the spec's scenario catalog
`[A@1.0, A@2.0, B@1.0]`: the reduced set is `{A@2.0, B@1.0}` and the kept
`A` entry dominates the `A@1.0` catalog entry. -/
theorem latestReduce_max_witness :
    ensureLatestExist ⟨none, some [⟨"A", "A", "1.0"⟩, ⟨"A", "A", "2.0"⟩,
        ⟨"B", "B", "1.0"⟩]⟩ =
      LatestOutcome.processed none
        (latestReduce [⟨"A", "A", "1.0"⟩, ⟨"A", "A", "2.0"⟩, ⟨"B", "B", "1.0"⟩]) ∧
    latestReduce [⟨"A", "A", "1.0"⟩, ⟨"A", "A", "2.0"⟩, ⟨"B", "B", "1.0"⟩] =
      [⟨"A", "A", "2.0"⟩, ⟨"B", "B", "1.0"⟩] ∧
    jsStringLe (versionStringFromTaskDef ⟨"A", "A", "1.0"⟩)
      (⟨"A", "A", "2.0"⟩ : TaskInstance).version :=
  ⟨(latestReduce_max [⟨"A", "A", "1.0"⟩, ⟨"A", "A", "2.0"⟩,
      ⟨"B", "B", "1.0"⟩]).1,
    by decide,
    ((latestReduce_max [⟨"A", "A", "1.0"⟩, ⟨"A", "A", "2.0"⟩,
        ⟨"B", "B", "1.0"⟩]).2.2 ⟨"A", "A", "2.0"⟩ (by decide)).2
      ⟨"A", "A", "1.0"⟩ (by decide) rfl⟩

/-- Claim C8 (code bug).  When `getTasks` reports an error, line 64 rejects
the promise but does not return: with a task list delivered alongside the
error, the catalog is still reduced and `ensureTasksExist` is still called;
with a `null` list, line 70 throws a TypeError reading `tasks.length`.
Either way the listing failure does not abort the operation cleanly. -/
theorem latest_processes_despite_error :
    ensureLatestExist ⟨some "listing failed", some [⟨"A", "A", "1.0"⟩]⟩ =
        LatestOutcome.processed (some "listing failed") [⟨"A", "A", "1.0"⟩] ∧
      ensureLatestExist ⟨some "listing failed", none⟩ =
        LatestOutcome.threw (some "listing failed") := by decide

/-! ## Workspace resolver (vsoworker.ts, `setVariables`, lines 23-58) -/

/-- Job variable map: a JavaScript object with string values; `none` models
an absent property (JavaScript `undefined`). -/
abbrev VarMap := String → Option String

/-- Modelled from the spec: the `cm.sysVars.system` key (`common.ts` is not
among the visible sources; key names follow the spec's variable list). -/
def sysVars.system : String := "system"

/-- Modelled from the spec: the `cm.sysVars.collectionId` key. -/
def sysVars.collectionId : String := "collectionId"

/-- Modelled from the spec: the `cm.sysVars.collectionUri` key. -/
def sysVars.collectionUri : String := "collectionUri"

/-- Modelled from the spec: the `cm.sysVars.definitionId` key. -/
def sysVars.definitionId : String := "definitionId"

/-- Modelled from the spec: the `cm.agentVars.workingDirectory` key. -/
def agentVars.workingDirectory : String := "workingDirectory"

/-- Modelled from the spec: the `cm.agentVars.buildDirectory` key. -/
def agentVars.buildDirectory : String := "buildDirectory"

/-- Modelled from the spec: the `cm.buildVars.stagingDirectory` key. -/
def buildVars.stagingDirectory : String := "stagingDirectory"

structure Endpoint where
  url : String
deriving DecidableEq, Repr

structure SystemConnection where
  url : String
deriving DecidableEq, Repr

structure Authorization where
  serverUrl : String
deriving DecidableEq, Repr

structure JobEnvironment where
  «variables» : VarMap
  endpoints : Option (List Endpoint)
  systemConnection : Option SystemConnection

structure JobRequestMessage where
  environment : JobEnvironment
  authorization : Authorization

/-- JavaScript coercion of a possibly-absent string property under `+`
concatenation: an absent property concatenates as the text `undefined`. -/
def jsStr : Option String → String
  | some s => s
  | none => "undefined"

/-- JavaScript truthiness test `!variables[k]` on a string-valued property:
absent values and the empty string are falsy. -/
def jsFalsy : Option String → Bool
  | none => true
  | some s => s == ""

/-- Property write on a JavaScript object. -/
def setVar (v : VarMap) (k val : String) : VarMap :=
  fun k' => if k' = k then some val else v k'

theorem setVar_ne (v : VarMap) (k val k' : String) (h : k' ≠ k) :
    setVar v k val k' = v k' := by
  simp [setVar, h]

/-- Agent configuration as the resolver consumes it. -/
structure IConfiguration where
  workFolder : String
deriving DecidableEq, Repr

/-- Modelled from the spec: `cm.getWorkPath config` (`common.ts`, not among
the visible sources) returns the agent's configured working folder. -/
def getWorkPath (config : IConfiguration) : String := config.workFolder

/-- Simplified model of Node `path.join` on plain segments. -/
def pathJoin (a b : String) : String := a ++ "/" ++ b

/-- The backfill value for the collection-URI variable (line 34): the system
connection URL when a system connection is present, otherwise the
authorization server URL. -/
def collectionUriBackfill (job : JobRequestMessage) : String :=
  match job.environment.systemConnection with
  | some sc => sc.url
  | none => job.authorization.serverUrl

/-- The variable map after the collection-URI normalization (lines 33-35):
the key is (over)written exactly when its current value is falsy. -/
def varsAfterUri (job : JobRequestMessage) : VarMap :=
  if jsFalsy (job.environment.«variables» sysVars.collectionUri) then
    setVar job.environment.«variables» sysVars.collectionUri
      (collectionUriBackfill job)
  else job.environment.«variables»

/-- The digest input accumulated at lines 37-44: `collId + ':' + defId`
(the definition id read after the normalization, line 37), then
`':' + endpoint.url` for each endpoint in listed order, without
deduplication. -/
def hashInputOf (job : JobRequestMessage) : String :=
  match job.environment.endpoints with
  | none =>
    jsStr (job.environment.«variables» sysVars.collectionId) ++ ":" ++
      jsStr (varsAfterUri job sysVars.definitionId)
  | some eps =>
    eps.foldl (fun acc ep => acc ++ ":" ++ ep.url)
      (jsStr (job.environment.«variables» sysVars.collectionId) ++ ":" ++
        jsStr (varsAfterUri job sysVars.definitionId))

/-- `setVariables` (lines 23-58), parameterized by the hex digest function
(Node `crypto` SHA-256, external to the sources; the claims depend only on
the digest being a fixed function of its input string).  Returns the updated
variable map, or `none` when the job lacks the `system` variable and
`path.join(workingFolder, undefined, hash)` at line 50 throws. -/
def setVariables (sha256hex : String → String) (job : JobRequestMessage)
    (config : IConfiguration) : Option VarMap :=
  match job.environment.«variables» sysVars.system with
  | none => none
  | some sysName =>
    let workingFolder := getWorkPath config
    let buildDirectory :=
      pathJoin (pathJoin workingFolder sysName) (sha256hex (hashInputOf job))
    let v2 := setVar (varsAfterUri job) agentVars.workingDirectory workingFolder
    let v3 := setVar v2 agentVars.buildDirectory buildDirectory
    let stagingFolder := pathJoin buildDirectory "staging"
    some (setVar v3 buildVars.stagingDirectory stagingFolder)

/-- The endpoint URLs in listed order (an absent `endpoints` list
contributes none). -/
def endpointUrls (job : JobRequestMessage) : List String :=
  match job.environment.endpoints with
  | none => []
  | some eps => eps.map (·.url)

/-- The spec's words for the digest input: the listed strings joined
with `:`. -/
def colonJoined : List String → String
  | [] => ""
  | [x] => x
  | x :: y :: xs => x ++ ":" ++ colonJoined (y :: xs)

theorem colonJoined_cons_append (a u : String) (us : List String) :
    colonJoined ((a ++ ":" ++ u) :: us) = a ++ ":" ++ colonJoined (u :: us) := by
  cases us with
  | nil => rfl
  | cons w ws => simp [colonJoined, String.append_assoc]

theorem foldl_endpoint_eq (eps : List Endpoint) (init : String) :
    eps.foldl (fun acc ep => acc ++ ":" ++ ep.url) init =
      colonJoined (init :: eps.map (fun e => e.url)) := by
  induction eps generalizing init with
  | nil => rfl
  | cons e es ih =>
    simp only [List.foldl_cons, List.map_cons]
    rw [ih, colonJoined_cons_append]
    rfl

theorem varsAfterUri_definitionId (job : JobRequestMessage) :
    varsAfterUri job sysVars.definitionId =
      job.environment.«variables» sysVars.definitionId := by
  unfold varsAfterUri
  by_cases hb : jsFalsy (job.environment.«variables» sysVars.collectionUri) = true
  · rw [if_pos hb]
    exact setVar_ne _ _ _ _ (by decide)
  · rw [if_neg hb]

theorem hashInputOf_eq (job : JobRequestMessage) :
    hashInputOf job =
      colonJoined (jsStr (job.environment.«variables» sysVars.collectionId) ::
        jsStr (job.environment.«variables» sysVars.definitionId) ::
        endpointUrls job) := by
  rw [← varsAfterUri_definitionId]
  cases heps : job.environment.endpoints with
  | none => simp [hashInputOf, endpointUrls, heps, colonJoined]
  | some eps =>
    simp only [hashInputOf, endpointUrls, heps]
    rw [foldl_endpoint_eq, colonJoined_cons_append]
    rfl

theorem setVariables_buildDir (sha256hex : String → String)
    (job : JobRequestMessage) (config : IConfiguration) (sysName : String)
    (hsys : job.environment.«variables» sysVars.system = some sysName) :
    ∃ v', setVariables sha256hex job config = some v' ∧
      v' agentVars.buildDirectory =
        some (pathJoin (pathJoin (getWorkPath config) sysName)
          (sha256hex (colonJoined
            (jsStr (job.environment.«variables» sysVars.collectionId) ::
              jsStr (job.environment.«variables» sysVars.definitionId) ::
              endpointUrls job)))) := by
  simp only [setVariables, hsys]
  refine ⟨_, rfl, ?_⟩
  simp only [setVar]
  rw [if_neg (by decide : ¬(agentVars.buildDirectory = buildVars.stagingDirectory))]
  simp only [if_true]
  rw [hashInputOf_eq]

/-- Claim C6.  For every job carrying a `system` variable, `setVariables`
sets the build-directory variable to
`join(workingFolder, systemName, digest(hashInput))` where `hashInput` is
the collection id, the definition id and every endpoint URL in listed order
— duplicates included — joined with `:`.  The digest function is a
parameter; instantiating it with hex SHA-256 gives the concrete behaviour,
and nothing else enters the digest input. -/
theorem buildDirectory_formula (sha256hex : String → String)
    (job : JobRequestMessage) (config : IConfiguration) (sysName : String)
    (hsys : job.environment.«variables» sysVars.system = some sysName) :
    ∃ v', setVariables sha256hex job config = some v' ∧
      v' agentVars.buildDirectory =
        some (pathJoin (pathJoin (getWorkPath config) sysName)
          (sha256hex (colonJoined
            (jsStr (job.environment.«variables» sysVars.collectionId) ::
              jsStr (job.environment.«variables» sysVars.definitionId) ::
              endpointUrls job)))) :=
  setVariables_buildDir sha256hex job config sysName hsys

/-- A job whose endpoint list names the same URL twice. -/
def dupJob : JobRequestMessage :=
  { environment :=
      { «variables» := fun k =>
          if k = sysVars.system then some "Build"
          else if k = sysVars.collectionId then some "C"
          else if k = sysVars.definitionId then some "7"
          else none,
        endpoints := some [⟨"http://svc"⟩, ⟨"http://svc"⟩],
        systemConnection := none },
    authorization := ⟨"http://auth"⟩ }

def workCfg : IConfiguration := ⟨"work"⟩

/-- Witness for C6: with the identity digest, the duplicated endpoint URL
appears twice in the digest input. -/
theorem buildDirectory_formula_witness :
    ∃ v', setVariables (fun s => s) dupJob workCfg = some v' ∧
      v' agentVars.buildDirectory =
        some (pathJoin (pathJoin (getWorkPath workCfg) "Build")
          (colonJoined ["C", "7", "http://svc", "http://svc"])) := by
  obtain ⟨v', hv, hb⟩ :=
    buildDirectory_formula (fun s => s) dupJob workCfg "Build" (by decide)
  refine ⟨v', hv, ?_⟩
  rw [hb]
  decide

/-- A job agreeing with `dupJob` on the hash-relevant state but differing in
its other variables, system connection and authorization. -/
def dupJobVariant : JobRequestMessage :=
  { environment :=
      { «variables» := fun k =>
          if k = sysVars.system then some "Build"
          else if k = sysVars.collectionId then some "C"
          else if k = sysVars.definitionId then some "7"
          else if k = "customVar" then some "other" else none,
        endpoints := some [⟨"http://svc"⟩, ⟨"http://svc"⟩],
        systemConnection := some ⟨"http://conn"⟩ },
    authorization := ⟨"http://elsewhere"⟩ }

/-- Claim C7.  Two jobs agreeing on the `system` variable, the collection
id, the definition id and the ordered endpoint URLs, run against
configurations with the same working folder and the same digest function,
receive the same build directory — the computation depends on nothing
else. -/
theorem buildDirectory_deterministic (sha256hex : String → String)
    (j1 j2 : JobRequestMessage) (c1 c2 : IConfiguration) (sysName : String)
    (h1 : j1.environment.«variables» sysVars.system = some sysName)
    (h2 : j2.environment.«variables» sysVars.system = some sysName)
    (hco : j1.environment.«variables» sysVars.collectionId =
      j2.environment.«variables» sysVars.collectionId)
    (hde : j1.environment.«variables» sysVars.definitionId =
      j2.environment.«variables» sysVars.definitionId)
    (hur : endpointUrls j1 = endpointUrls j2)
    (hwf : getWorkPath c1 = getWorkPath c2) :
    ∃ v1 v2, setVariables sha256hex j1 c1 = some v1 ∧
      setVariables sha256hex j2 c2 = some v2 ∧
      v1 agentVars.buildDirectory = v2 agentVars.buildDirectory := by
  obtain ⟨v1, hv1, hb1⟩ := setVariables_buildDir sha256hex j1 c1 sysName h1
  obtain ⟨v2, hv2, hb2⟩ := setVariables_buildDir sha256hex j2 c2 sysName h2
  refine ⟨v1, v2, hv1, hv2, ?_⟩
  rw [hb1, hb2, hco, hde, hur, hwf]

/-- Witness for C7: `dupJob` and `dupJobVariant` share the identity-digest
build directory despite their different connections and extra variables. -/
theorem buildDirectory_deterministic_witness :
    ∃ v1 v2, setVariables (fun s => s) dupJob workCfg = some v1 ∧
      setVariables (fun s => s) dupJobVariant workCfg = some v2 ∧
      v1 agentVars.buildDirectory = v2 agentVars.buildDirectory :=
  buildDirectory_deterministic (fun s => s) dupJob dupJobVariant workCfg
    workCfg "Build" (by decide) (by decide) (by decide) (by decide)
    (by decide) rfl

/-- A job whose collection-URI variable is present but empty, with a system
connection and an unrelated custom variable. -/
def uriJob : JobRequestMessage :=
  { environment :=
      { «variables» := fun k =>
          if k = sysVars.system then some "Build"
          else if k = sysVars.collectionId then some "C"
          else if k = sysVars.definitionId then some "7"
          else if k = sysVars.collectionUri then some ""
          else if k = "customVar" then some "keep" else none,
        endpoints := none,
        systemConnection := some ⟨"http://conn"⟩ },
    authorization := ⟨"http://auth"⟩ }

/-- Counterexample to C10 as stated: line 33 tests JavaScript falsiness
(`!variables[k]`), not absence, so a collection-URI variable that is present
but empty is overwritten by the backfill. -/
theorem setVariables_overwrites_empty_uri :
    ∃ v', setVariables (fun s => s) uriJob workCfg = some v' ∧
      uriJob.environment.«variables» sysVars.collectionUri = some "" ∧
      v' sysVars.collectionUri = some "http://conn" ∧
      v' sysVars.collectionUri ≠
        uriJob.environment.«variables» sysVars.collectionUri := by
  refine ⟨_, rfl, by decide, by decide, by decide⟩

/-- `setVariables` as it acts on the whole job message: lines 23-58 assign
only entries of `job.environment.variables` (lines 34, 51, 52, 55); no other
field of the job is ever assigned, so the resulting job carries the updated
variable map and the original remaining fields. -/
def setVariablesJob (sha256hex : String → String) (job : JobRequestMessage)
    (config : IConfiguration) : Option JobRequestMessage :=
  match setVariables sha256hex job config with
  | none => none
  | some v' =>
    some
      { environment :=
          { «variables» := v',
            endpoints := job.environment.endpoints,
            systemConnection := job.environment.systemConnection },
        authorization := job.authorization }

/-- Claim C10 (amended).  `setVariables` writes at most the four keys
collection URI, working directory, build directory and staging directory:
every other variable keeps its value, and every other field of the job —
endpoints, system connection, authorization — is unchanged; the collection
URI itself is rewritten exactly when its previous value was
JavaScript-falsy — absent or the empty string — rather than only when
absent. -/
theorem setVariables_frame (sha256hex : String → String)
    (job : JobRequestMessage) (config : IConfiguration) (sysName : String)
    (hsys : job.environment.«variables» sysVars.system = some sysName) :
    ∃ j', setVariablesJob sha256hex job config = some j' ∧
      (∀ k, k ≠ sysVars.collectionUri → k ≠ agentVars.workingDirectory →
        k ≠ agentVars.buildDirectory → k ≠ buildVars.stagingDirectory →
        j'.environment.«variables» k = job.environment.«variables» k) ∧
      (jsFalsy (job.environment.«variables» sysVars.collectionUri) = false →
        j'.environment.«variables» sysVars.collectionUri =
          job.environment.«variables» sysVars.collectionUri) ∧
      j'.environment.endpoints = job.environment.endpoints ∧
      j'.environment.systemConnection = job.environment.systemConnection ∧
      j'.authorization = job.authorization := by
  simp only [setVariablesJob, setVariables, hsys]
  refine ⟨_, rfl, ?_, ?_, rfl, rfl, rfl⟩
  · intro k h1 h2 h3 h4
    simp only [setVar]
    rw [if_neg h4, if_neg h3, if_neg h2]
    unfold varsAfterUri
    by_cases hb : jsFalsy (job.environment.«variables» sysVars.collectionUri) = true
    · rw [if_pos hb]
      exact setVar_ne _ _ _ _ h1
    · rw [if_neg hb]
  · intro hfalse
    simp only [setVar]
    rw [if_neg (by decide : ¬(sysVars.collectionUri = buildVars.stagingDirectory))]
    rw [if_neg (by decide : ¬(sysVars.collectionUri = agentVars.buildDirectory))]
    rw [if_neg (by decide : ¬(sysVars.collectionUri = agentVars.workingDirectory))]
    unfold varsAfterUri
    rw [if_neg (by simp [hfalse])]

/-- A job whose collection-URI variable is present and non-empty. -/
def frameJob : JobRequestMessage :=
  { environment :=
      { «variables» := fun k =>
          if k = sysVars.system then some "Build"
          else if k = sysVars.collectionId then some "C"
          else if k = sysVars.definitionId then some "7"
          else if k = sysVars.collectionUri then some "http://present"
          else if k = "customVar" then some "keep" else none,
        endpoints := none,
        systemConnection := some ⟨"http://conn"⟩ },
    authorization := ⟨"http://auth"⟩ }

/-- Witness for the amended C10: an unrelated variable, a truthy collection
URI and the job's non-variable fields survive `setVariables` unchanged. -/
theorem setVariables_frame_witness :
    ∃ j', setVariablesJob (fun s => s) frameJob workCfg = some j' ∧
      j'.environment.«variables» "customVar" =
        frameJob.environment.«variables» "customVar" ∧
      j'.environment.«variables» sysVars.collectionUri =
        frameJob.environment.«variables» sysVars.collectionUri ∧
      j'.environment.endpoints = frameJob.environment.endpoints ∧
      j'.environment.systemConnection = frameJob.environment.systemConnection ∧
      j'.authorization = frameJob.authorization := by
  obtain ⟨j', hv, hframe, huri, hep, hsc, hauth⟩ :=
    setVariables_frame (fun s => s) frameJob workCfg "Build" (by decide)
  exact ⟨j', hv,
    hframe "customVar" (by decide) (by decide) (by decide) (by decide),
    huri (by decide), hep, hsc, hauth⟩

end VsoAgent
